import Mathlib

/-!
Verification development for the density / credible-interval core
(`python/getdist/densities.py`).

The Python module is embedded shallowly over exact rationals (`ℚ`):

* numpy arrays become `List ℚ` (N-dimensional arrays are a flat C-order
  `List ℚ` together with a shape);
* in-place numpy updates become pure list transformations; a dedicated
  state-passing model (`getContourLevelsTracked`) makes the aliasing and
  the single group of mutating statements explicit;
* exceptions become `Except PyErr`;
* Python indexing `a[i]` is written `List.getD i 0`; every theorem below
  is stated under hypotheses keeping those indices in range, so the
  default value is never reachable there.

scipy spline construction (`splrep` / `splev` / `RectBivariateSpline`) is
external library code: functions that consume a spline take the evaluated
curve (or the evaluation function) as an explicit argument, exactly as
`Density1D.getLimits` accepts a precomputed `interpGrid` in the source.
-/

/-- Python-level failure: `DensitiesError msg` (the module's exception class)
or an out-of-range numpy indexing error. -/
inductive PyErr where
  | densities (msg : String)
  | index
deriving DecidableEq

instance {ε α : Type} [DecidableEq ε] [DecidableEq α] : DecidableEq (Except ε α) := fun a b =>
  match a, b with
  | .ok x, .ok y =>
      if h : x = y then .isTrue (by rw [h]) else .isFalse (fun hc => h (Except.ok.inj hc))
  | .error x, .error y =>
      if h : x = y then .isTrue (by rw [h]) else .isFalse (fun hc => h (Except.error.inj hc))
  | .ok _, .error _ => .isFalse (fun hc => Except.noConfusion hc)
  | .error _, .ok _ => .isFalse (fun hc => Except.noConfusion hc)

/-- The message raised by the contour level solver when a target lies below
the smallest cumulative value (source line 44). -/
def contourOutOfRangeErr : PyErr := .densities "Contour level outside plotted ranges"

/-- `np.cumsum` with running total `acc`. -/
def cumsumFrom (acc : ℚ) : List ℚ → List ℚ
  | [] => []
  | v :: rest => (acc + v) :: cumsumFrom (acc + v) rest

/-- `np.cumsum`. -/
def cumsumQ (l : List ℚ) : List ℚ := cumsumFrom 0 l

/-- `np.searchsorted(a, v)` (left side): on a nondecreasing array this is the
first index whose entry is `≥ v`, i.e. the length of the prefix of entries
`< v`.  All uses below are on nondecreasing cumulative sums. -/
def searchsortedLeft (a : List ℚ) (v : ℚ) : ℕ :=
  match a with
  | [] => 0
  | x :: rest => if x < v then searchsortedLeft rest v + 1 else 0

/-- A numpy array: C-order flat data plus a shape. -/
structure NDArray where
  shape : List ℕ
  data : List ℚ
deriving DecidableEq

/-- C-order stride of axis `a`: product of the sizes of the later axes. -/
def strideOf (shape : List ℕ) (a : ℕ) : ℕ := (shape.drop (a + 1)).prod

/-- Coordinate along axis `a` of the cell at flat index `i` (C order). -/
def coordOf (shape : List ℕ) (i a : ℕ) : ℕ :=
  (i / strideOf shape a) % shape.getD a 1

/-- Helper for `halveSlice`, carrying the current flat index. -/
def halveSliceAux (shape : List ℕ) (a edge : ℕ) : ℕ → List ℚ → List ℚ
  | _, [] => []
  | i, v :: rest =>
      (if coordOf shape i a = edge then v / 2 else v) :: halveSliceAux shape a edge (i + 1) rest

/-- The in-place slice update `abins[..., edge, ...] /= 2` along axis `a`
(source lines 29-30), as a pure transformation of the flat data. -/
def halveSlice (shape : List ℕ) (a edge : ℕ) (l : List ℚ) : List ℚ :=
  halveSliceAux shape a edge 0 l

/-- The `half_edge` adjustment loop (source lines 26-32): for every axis,
halve the last boundary slice and then the first boundary slice. -/
def halfEdgeAdjust (shape : List ℕ) (data : List ℚ) : List ℚ :=
  (List.range shape.length).foldl
    (fun d a => halveSlice shape a 0 (halveSlice shape a (shape.getD a 1 - 1) d)) data

/-- Comparison of (value, index) pairs by value, used for argsort. -/
def pairLe (p q : ℚ × ℕ) : Prop := p.1 ≤ q.1

instance : DecidableRel pairLe := fun p q => inferInstanceAs (Decidable (p.1 ≤ q.1))

instance : IsTotal (ℚ × ℕ) pairLe := ⟨fun a b => le_total a.1 b.1⟩

instance : IsTrans (ℚ × ℕ) pairLe := ⟨fun _ _ _ h h2 => le_trans h h2⟩

/-- The list of (value, index) pairs of a list. -/
def indexPairs (l : List ℚ) : List (ℚ × ℕ) :=
  (List.range l.length).map fun i => (l.getD i 0, i)

/-- `np.argsort`: the indices of `l` ordered by increasing value.  numpy's
default quicksort is not stable; we model the stable argsort.  Every concrete
input evaluated below is insensitive to the tie order: tied original values
always carry equal adjusted values there. -/
def argsortStable (l : List ℚ) : List ℕ :=
  ((indexPairs l).insertionSort pairLe).map (·.2)

/-- `np.sort` (ascending). -/
def npSort (l : List ℚ) : List ℚ := l.insertionSort (· ≤ ·)

/-- Default contour fractions `[0.68, 0.95]` (source line 9). -/
def defaultContours : List ℚ := [68/100, 95/100]

/-- `abins`: the array actually summed by the solver — the half-edge adjusted
copy when `half_edge`, otherwise `inbins` itself (source lines 24-34). -/
def contourAdjusted (inbins : NDArray) (half_edge : Bool) : List ℚ :=
  if half_edge then halfEdgeAdjust inbins.shape inbins.data else inbins.data

/-- `targets = (1 - contours) * norm - missing_norm` with
`norm = np.sum(abins)` (source lines 35-36). -/
def contourTargets (inbins : NDArray) (contours : List ℚ) (missing_norm : ℚ)
    (half_edge : Bool) : List ℚ :=
  let norm := (contourAdjusted inbins half_edge).sum
  contours.map fun c => (1 - c) * norm - missing_norm

/-- `sortgrid = bins[indexes]`: the adjusted values reordered by the argsort
of the ORIGINAL `inbins` (source lines 37-39). -/
def contourSortgrid (inbins : NDArray) (half_edge : Bool) : List ℚ :=
  (argsortStable inbins.data).map fun i => (contourAdjusted inbins half_edge).getD i 0

/-- `cumsum = np.cumsum(sortgrid)` (source line 40). -/
def contourCumsum (inbins : NDArray) (half_edge : Bool) : List ℚ :=
  cumsumQ (contourSortgrid inbins half_edge)

/-- The interpolated contour level for one target (source lines 45-47):
`sortgrid[ix] * (1 - d) + d * sortgrid[ix - 1]` with
`d = (cumsum[ix] - target) / (cumsum[ix] - cumsum[ix - 1])`. -/
def contourLevelVal (sortgrid cumsum : List ℚ) (target : ℚ) : ℚ :=
  let ix := searchsortedLeft cumsum target
  let h := cumsum.getD ix 0 - cumsum.getD (ix - 1) 0
  let d := (cumsum.getD ix 0 - target) / h
  sortgrid.getD ix 0 * (1 - d) + d * sortgrid.getD (ix - 1) 0

/-- One iteration of the solver loop (source lines 42-47): raise
`DensitiesError` when the insertion index is 0, raise an indexing error when
`ix` falls past the end of `cumsum` (Python would raise `IndexError` at
`cumsum[ix]`), otherwise return the interpolated level. -/
def contourLevelAt (sortgrid cumsum : List ℚ) (target : ℚ) : Except PyErr ℚ :=
  let ix := searchsortedLeft cumsum target
  if ix = 0 then .error contourOutOfRangeErr
  else if ix < cumsum.length then .ok (contourLevelVal sortgrid cumsum target)
  else .error .index

/-- The solver loop over all targets, stopping at the first failure
(source lines 42-47; the source preallocates `contour_levels` and fills it,
which yields the same list). -/
def contourLoop (sortgrid cumsum : List ℚ) : List ℚ → Except PyErr (List ℚ)
  | [] => .ok []
  | t :: rest => do
      let v ← contourLevelAt sortgrid cumsum t
      let vs ← contourLoop sortgrid cumsum rest
      pure (v :: vs)

/-- `getContourLevels(inbins, contours, missing_norm, half_edge)`
(source lines 12-48). -/
def getContourLevels (inbins : NDArray) (contours : List ℚ) (missing_norm : ℚ)
    (half_edge : Bool) : Except PyErr (List ℚ) :=
  contourLoop (contourSortgrid inbins half_edge) (contourCumsum inbins half_edge)
    (contourTargets inbins contours missing_norm half_edge)

/-- 1D marginalized density: axis `x`, densities `P`, optional view-range
override.  The invariants (ascending uniform axis, matching sizes) are
assumed by the source, not validated. -/
structure Density1D where
  x : List ℚ
  P : List ℚ
  view_ranges : Option (ℚ × ℚ) := none

/-- `spacing = x[1] - x[0]` (source line 133). -/
def Density1D.spacing (d : Density1D) : ℚ := d.x.getD 1 0 - d.x.getD 0 0

/-- `Density1D.bounds` (source lines 136-142): the view-range override when
set, else `(x[0], x[-1])`. -/
def Density1D.bounds (d : Density1D) : ℚ × ℚ :=
  match d.view_ranges with
  | some v => v
  | none => (d.x.getD 0 0, d.x.getD (d.x.length - 1) 0)

/-- `Density1D.integrate` (source line 162): composite trapezoidal rule
`((P[0] + P[-1]) / 2 + np.sum(P[1:-1])) * spacing`. -/
def Density1D.integrate (d : Density1D) (P : List ℚ) : ℚ :=
  ((P.getD 0 0 + P.getD (P.length - 1) 0) / 2 + ((P.drop 1).dropLast).sum) * d.spacing

/-- `Density1D.norm_integral` (source lines 164-165). -/
def Density1D.norm_integral (d : Density1D) : ℚ := d.integrate d.P

/-- `GridDensity.normalize` for a 1D density (source lines 57-78).  The
`in_place` flag only decides whether the scaled array replaces `P` via
assignment or via `setP`; both end with the same `P` (the `setP` shape check
passes because scaling preserves the shape), so it is dropped here.
`np.max` on an empty array raises, modelled by `.error .index`. -/
def Density1D.normalize (d : Density1D) (mode : String) : Except PyErr Density1D :=
  if mode = "integral" then
    let norm := d.norm_integral
    .ok { d with P := d.P.map (· / norm) }
  else if mode = "max" then
    match d.P with
    | [] => .error .index
    | p0 :: rest =>
        let norm := rest.foldl max p0
        if norm = 0 then .error (.densities "no samples in bin")
        else .ok { d with P := d.P.map (· / norm) }
  else .error (.densities "Density: unknown normalization")

/-- The `InterpGrid` value bundle built by `initLimitGrids` (source lines
167-186).  The refined curve `grid` is produced there by resampling the
scipy spline (`splev`), which is external library code, so the curve and the
trapezoidal normalization constant are carried as data; `getLimits` accepts
such a precomputed grid as its `interpGrid` argument. -/
structure InterpGrid where
  factor : ℕ
  grid : List ℚ
  norm : ℚ

/-- `g.bign = (n - 1) * factor + 1`, the number of refined samples: the
length of the resampled curve (source lines 177-179). -/
def InterpGrid.bign (g : InterpGrid) : ℕ := g.grid.length

/-- `g.sortgrid = np.sort(g.grid)` (source line 184). -/
def InterpGrid.sortgrid (g : InterpGrid) : List ℚ := npSort g.grid

/-- `g.cumsum = np.cumsum(g.sortgrid)` (source line 185). -/
def InterpGrid.cumsum (g : InterpGrid) : List ℚ := cumsumQ g.sortgrid

/-- The threshold selection of `getLimits` (source lines 202-209):
`trial = sortgrid[ix]`, refined, when `ix > 0`, to
`(1 - frac) * sortgrid[ix] + frac * sortgrid[ix + 1]` with
`frac = (cumsum[ix] - target) / (cumsum[ix] - cumsum[ix - 1])`. -/
def limitTrial (g : InterpGrid) (target : ℚ) : ℚ :=
  let ix := searchsortedLeft g.cumsum target
  let trial := g.sortgrid.getD ix 0
  if 0 < ix then
    let d := g.cumsum.getD ix 0 - g.cumsum.getD (ix - 1) 0
    let frac := (g.cumsum.getD ix 0 - target) / d
    (1 - frac) * trial + frac * g.sortgrid.getD (ix + 1) 0
  else trial

/-- `np.argmax(l > t)` for a 1D array: the first index whose entry exceeds
`t`, or 0 when no entry does (numpy's argmax of an all-False array is 0). -/
def npArgmaxGt (l : List ℚ) (t : ℚ) : ℕ :=
  let k := (l.takeWhile fun v => decide (v ≤ t)).length
  if k = l.length then 0 else k

/-- The body of the `getLimits` loop for one target (source lines 204-226):
compute the trial threshold, then the lower and upper bound with their
boundary flags.  The returned flags are the source's `lim_bot` / `lim_top`:
true exactly when the refined curve's edge sample already meets the
threshold, in which case the bound is the domain edge. -/
def Density1D.getLimitsOne (d : Density1D) (g : InterpGrid) (target : ℚ) :
    ℚ × ℚ × Bool × Bool :=
  let trial := limitTrial g target
  let finespace := d.spacing / (g.factor : ℚ)
  let lim_bot := decide (trial ≤ g.grid.getD 0 0)
  let mn :=
    if lim_bot then d.x.getD 0 0
    else
      let i := npArgmaxGt g.grid trial
      let dd := (g.grid.getD i 0 - trial) / (g.grid.getD i 0 - g.grid.getD (i - 1) 0)
      d.x.getD 0 0 + ((i : ℚ) - dd) * finespace
  let lim_top := decide (trial ≤ g.grid.getD (g.grid.length - 1) 0)
  let mx :=
    if lim_top then d.x.getD (d.x.length - 1) 0
    else
      let i := g.bign - npArgmaxGt g.grid.reverse trial - 1
      let dd := (g.grid.getD i 0 - trial) / (g.grid.getD i 0 - g.grid.getD (i + 1) 0)
      d.x.getD 0 0 + ((i : ℚ) + dd) * finespace
  (mn, mx, lim_bot, lim_top)

/-- The dynamic argument `p` of `getLimits`: a Python scalar, a numpy array
(already at least 1-dimensional), or a Python list/tuple of probabilities. -/
inductive PyP where
  | scalar (q : ℚ)
  | npArray (l : List ℚ)
  | pyList (l : List ℚ)

/-- `np.atleast_1d(p)` together with Python object identity: the result is
the SAME object as `p` (so that the source's `parr is not p` test is false)
exactly when `p` is already a numpy array of dimension at least 1; scalars
and Python lists/tuples are converted to a fresh array. -/
def PyP.atleast1d : PyP → List ℚ × Bool
  | .scalar q => ([q], false)
  | .npArray l => (l, true)
  | .pyList l => (l, false)

/-- The dynamic return value of `getLimits`: a bare 4-tuple (returned from
inside the loop when `parr is not p`) or a list of 4-tuples. -/
inductive LimitsResult where
  | single (r : ℚ × ℚ × Bool × Bool)
  | list (rs : List (ℚ × ℚ × Bool × Bool))
deriving DecidableEq

/-- `Density1D.getLimits(p, interpGrid)` (source lines 188-229).
`targets = (1 - parr) * g.norm`; the loop returns the bare tuple of the
FIRST target as soon as `parr is not p` (which holds for scalars and for
Python lists/tuples, since `np.atleast_1d` created a fresh array), and
otherwise accumulates one tuple per target. -/
def Density1D.getLimits (d : Density1D) (p : PyP) (g : InterpGrid) : LimitsResult :=
  let pr := p.atleast1d
  let targets := pr.1.map fun q => (1 - q) * g.norm
  if pr.2 then .list (targets.map fun t => d.getLimitsOne g t)
  else
    match targets with
    | [] => .list []
    | t :: _ => .single (d.getLimitsOne g t)

/-- 2D marginalized density: axes `x`, `y`; `P` is indexed `[y, x]` (row
index along `y`), matching the source's `axes = [y, x]` shape convention. -/
structure Density2D where
  x : List ℚ
  y : List ℚ
  P : List (List ℚ)
  view_ranges : Option (List (ℚ × ℚ)) := none

/-- `spacing = (x[1] - x[0]) * (y[1] - y[0])` (source line 248). -/
def Density2D.spacing (d : Density2D) : ℚ :=
  (d.x.getD 1 0 - d.x.getD 0 0) * (d.y.getD 1 0 - d.y.getD 0 0)

/-- `P[1:-1]` of a list (both row and column slicing use it). -/
def innerSlice {α : Type} (l : List α) : List α := (l.drop 1).dropLast

/-- `Density2D.integrate` (source lines 251-255): interior cells at weight 1,
the four corners at 1/4, the remaining boundary cells at 1/2, scaled by the
cell area. -/
def Density2D.integrate (d : Density2D) (P : List (List ℚ)) : ℚ :=
  let first := P.getD 0 []
  let last := P.getD (P.length - 1) []
  let interior := ((innerSlice P).map fun r => (innerSlice r).sum).sum
  let corners := first.getD 0 0 + first.getD (first.length - 1) 0
    + last.getD 0 0 + last.getD (last.length - 1) 0
  let edges := ((innerSlice P).map fun r => r.getD 0 0).sum + (innerSlice first).sum
    + ((innerSlice P).map fun r => r.getD (r.length - 1) 0).sum + (innerSlice last).sum
  (interior + corners / 4 + edges / 2) * d.spacing

/-- `Density2D.norm_integral` (source lines 257-258). -/
def Density2D.norm_integral (d : Density2D) : ℚ := d.integrate d.P

/-- `GridDensity.bounds` (source lines 95-106): the view-range override when
set; otherwise the per-axis `(first, last)` pairs in `axes` order, REVERSED
(the docstring: bounds in order x, y, z). -/
def gridBounds (axes : List (List ℚ)) (view_ranges : Option (List (ℚ × ℚ))) :
    List (ℚ × ℚ) :=
  match view_ranges with
  | some v => v
  | none => ((axes.map fun ax => (ax.getD 0 0, ax.getD (ax.length - 1) 0))).reverse

/-- `Density2D` inherits `GridDensity.bounds` with `axes = [y, x]`. -/
def Density2D.bounds (d : Density2D) : List (ℚ × ℚ) := gridBounds [d.y, d.x] d.view_ranges

/-- A dynamic Python value: a scalar or a 1D array. -/
inductive PyVal where
  | scalarV (q : ℚ)
  | arrayV (l : List ℚ)
deriving DecidableEq

/-- `scipy.interpolate.splev` as used here (external library code): applies
the spline evaluation `spl` elementwise; the output has the same shape as
the input (array in, array out; scalar in, scalar out). -/
def splevModel (spl : ℚ → ℚ) : PyVal → PyVal
  | .scalarV q => .scalarV (spl q)
  | .arrayV l => .arrayV (l.map spl)

/-- `Density1D.Prob(x)` (source lines 147-159): sequences are passed to
`splev` as-is; a scalar is wrapped as the one-element list `[x]` first.
`spl` is the lazily built cubic spline through `(x, P)` (scipy `splrep`,
external), evaluated with `ext=1`, i.e. 0 outside the grid range. -/
def Density1D.Prob (_d : Density1D) (spl : ℚ → ℚ) (x : PyVal) : PyVal :=
  match x with
  | .arrayV l => splevModel spl (.arrayV l)
  | .scalarV q => splevModel spl (.arrayV [q])

/-- The mutable-state view of the solver's two arrays.  `inbins` and `abins`
are the contents of the two Python names; `aliased` records whether they are
the same underlying numpy buffer (which is the case exactly when
`half_edge` is false, where `abins = inbins` without a copy). -/
structure CLState where
  inbins : List ℚ
  abins : List ℚ
  aliased : Bool

/-- One in-place write to `abins`; the update is visible through `inbins`
exactly when the two names alias the same buffer. -/
def CLState.writeAbins (s : CLState) (newData : List ℚ) : CLState :=
  { inbins := if s.aliased then newData else s.inbins, abins := newData, aliased := s.aliased }

/-- `getContourLevels` re-traced statement by statement over the explicit
state of its two array names (source lines 12-48).  The only mutating
statements in the function body are the edge halvings `abins[...] /= 2`
(lines 29-30), which run only in the `half_edge` branch, where `abins` is a
fresh copy (line 25); in the other branch `abins` aliases `inbins` (line 34)
and is only read.  Every later statement (sum, reshape, argsort, cumsum,
searchsorted, the loop) only reads.  Returns the result together with the
final contents of `inbins`. -/
def getContourLevelsTracked (inbins : NDArray) (contours : List ℚ) (missing_norm : ℚ)
    (half_edge : Bool) : Except PyErr (List ℚ) × List ℚ :=
  let s0 : CLState :=
    if half_edge then ⟨inbins.data, inbins.data, false⟩ else ⟨inbins.data, inbins.data, true⟩
  let s1 :=
    if half_edge then
      (List.range inbins.shape.length).foldl
        (fun s a =>
          let s2 := s.writeAbins (halveSlice inbins.shape a (inbins.shape.getD a 1 - 1) s.abins)
          s2.writeAbins (halveSlice inbins.shape a 0 s2.abins)) s0
    else s0
  let norm := s1.abins.sum
  let targets := contours.map fun c => (1 - c) * norm - missing_norm
  let sortgrid := (argsortStable s1.inbins).map fun i => s1.abins.getD i 0
  let cumsum := cumsumQ sortgrid
  (contourLoop sortgrid cumsum targets, s1.inbins)

/-! ### Helper lemmas -/

lemma npSort_sorted (l : List ℚ) : (npSort l).Sorted (· ≤ ·) :=
  List.sorted_insertionSort _ l

lemma npSort_perm (l : List ℚ) : List.Perm (npSort l) l :=
  List.perm_insertionSort _ l

lemma npSort_head_le (l : List ℚ) {a : ℚ} (ha : a ∈ l) : (npSort l).getD 0 0 ≤ a := by
  have hmem : a ∈ npSort l := (npSort_perm l).mem_iff.2 ha
  cases h : npSort l with
  | nil => rw [h] at hmem; exact absurd hmem (List.not_mem_nil a)
  | cons b t =>
      have hs := npSort_sorted l
      rw [h] at hs hmem
      rcases List.mem_cons.1 hmem with rfl | hmem2
      · simp
      · simpa using List.rel_of_sorted_cons hs a hmem2

lemma getD_zero_mem {l : List ℚ} (h : l ≠ []) : l.getD 0 0 ∈ l := by
  cases l with
  | nil => exact absurd rfl h
  | cons b t => simp

lemma getD_last_mem {l : List ℚ} (h : l ≠ []) : l.getD (l.length - 1) 0 ∈ l := by
  have hlt : l.length - 1 < l.length := by
    cases l with
    | nil => exact absurd rfl h
    | cons b t => simp
  rw [List.getD_eq_getElem _ _ hlt]
  exact List.getElem_mem hlt

/-! ### Concrete instances used by counterexamples and witnesses -/

/-- A 2-point 1D density with unit values. -/
def d1ex : Density1D := ⟨[0, 1], [1, 1], none⟩

/-- A refined interpolation grid of three unit samples. -/
def gEx : InterpGrid := ⟨2, [1, 1, 1], 3⟩

/-- A 2x2 2D density with distinct x and y ranges and no view override. -/
def d2ex : Density2D := ⟨[0, 1], [10, 20], [[1, 1], [1, 1]], none⟩

/-- The 5x5 all-ones 2D density with dx = dy = 0.2 of the spec's concrete
integral example. -/
def onesGrid5 : Density2D :=
  ⟨[0, 1/5, 2/5, 3/5, 4/5], [0, 1/5, 2/5, 3/5, 4/5],
   [[1, 1, 1, 1, 1], [1, 1, 1, 1, 1], [1, 1, 1, 1, 1], [1, 1, 1, 1, 1], [1, 1, 1, 1, 1]], none⟩

/-! ### C7 -/

/-- C7: on the 5x5 all-ones grid with dx = dy = 0.2 (spacing 0.04), the 2D
trapezoidal rule gives 9 interior cells at weight 1, 4 corners at 1/4 and 12
edge cells at 1/2, so `norm_integral()` returns `16 * 0.04 = 0.64`. -/
theorem norm_integral_2d_ones :
    onesGrid5.norm_integral = 16 * (4/100) ∧ (16 * (4/100) : ℚ) = 64/100 := by
  with_unfolding_all decide

/-! ### C3 -/

/-- C3 counterexample: for a `Density2D` with `x = [0, 1]`, `y = [10, 20]`
and no view override, `bounds()` returns the x-axis pair FIRST —
`[(0, 1), (10, 20)]` — not the y-axis pair first as the claim states. -/
theorem bounds_order_cex :
    d2ex.bounds = [(0, 1), (10, 20)] ∧ d2ex.bounds ≠ [(10, 20), (0, 1)] := by
  with_unfolding_all decide

/-- C3 (amended): with no view-range override, `bounds()` returns the
per-axis `(first, last)` pairs with the INNERMOST axis first — for
`Density2D` the x pair and then the y pair (the axes list `[y, x]` is
reversed) — and `Density1D.bounds` returns `(x[0], x[-1])`; when an override
is set it is returned verbatim. -/
theorem bounds_spec (d2 : Density2D) (d1 : Density1D) (v2 : List (ℚ × ℚ)) (v1 : ℚ × ℚ) :
    (d2.view_ranges = none →
      d2.bounds = [(d2.x.getD 0 0, d2.x.getD (d2.x.length - 1) 0),
                   (d2.y.getD 0 0, d2.y.getD (d2.y.length - 1) 0)])
    ∧ (d2.view_ranges = some v2 → d2.bounds = v2)
    ∧ (d1.view_ranges = none →
      d1.bounds = (d1.x.getD 0 0, d1.x.getD (d1.x.length - 1) 0))
    ∧ (d1.view_ranges = some v1 → d1.bounds = v1) := by
  refine ⟨fun h => ?_, fun h => ?_, fun h => ?_, fun h => ?_⟩ <;>
    simp [Density2D.bounds, Density1D.bounds, gridBounds, h]

/-- Witness for C3: the amended theorem applied to the concrete 2D grid. -/
theorem bounds_spec_witness : d2ex.bounds = [(0, 1), (10, 20)] := by
  have h := (bounds_spec d2ex d1ex [] (0, 0)).1 rfl
  simpa using h

/-! ### C9 -/

/-- C9 counterexample: `Prob` at the scalar 3 returns the one-element ARRAY
`[spl 3]` (the scalar is wrapped as `[x]` before `splev`), not a scalar, so
the output shape does not mirror a scalar input. -/
theorem Prob_scalar_cex :
    d1ex.Prob id (.scalarV 3) = .arrayV [3]
    ∧ d1ex.Prob id (.scalarV 3) ≠ .scalarV 3 := by
  with_unfolding_all decide

/-- C9 (amended): `Prob` accepts a scalar or a sequence; a sequence of
length k yields a sequence of k density values, but a scalar yields a
ONE-ELEMENT array (the source wraps the scalar in a list before `splev`),
not a bare scalar. -/
theorem Prob_shape (d : Density1D) (spl : ℚ → ℚ) (l : List ℚ) (q : ℚ) :
    d.Prob spl (.arrayV l) = .arrayV (l.map spl)
    ∧ (l.map spl).length = l.length
    ∧ d.Prob spl (.scalarV q) = .arrayV [spl q] :=
  ⟨rfl, by simp, rfl⟩

/-! ### C2 -/

/-- C2 counterexample: `getLimits` on the Python LIST `[1, 1]` returns the
bare tuple for the first probability, not a list of two tuples:
`np.atleast_1d` copies a Python list into a fresh array, so the source's
`parr is not p` test fires inside the first loop iteration. -/
theorem getLimits_pylist_single_cex :
    d1ex.getLimits (.pyList [1, 1]) gEx = .single (0, 1, true, true)
    ∧ d1ex.getLimits (.pyList [1, 1]) gEx
        ≠ .list [(0, 1, true, true), (0, 1, true, true)] := by
  with_unfolding_all decide

/-- C2 (amended): only a p that is already a numpy array returns the list of
one `(lowerBound, upperBound, lim_bot, lim_top)` tuple per probability in
corresponding order; a scalar p returns a single bare tuple, and a Python
list/tuple p ALSO returns the single bare tuple of its first probability
(`np.atleast_1d` creates a fresh array from it, so the source's
`parr is not p` early return fires), or the empty list if p is empty. -/
theorem getLimits_return_shape (d : Density1D) (g : InterpGrid) (l : List ℚ) (q : ℚ)
    (rest : List ℚ) :
    d.getLimits (.npArray l) g = .list (l.map fun p => d.getLimitsOne g ((1 - p) * g.norm))
    ∧ (l.map fun p => d.getLimitsOne g ((1 - p) * g.norm)).length = l.length
    ∧ d.getLimits (.scalar q) g = .single (d.getLimitsOne g ((1 - q) * g.norm))
    ∧ d.getLimits (.pyList (q :: rest)) g = .single (d.getLimitsOne g ((1 - q) * g.norm))
    ∧ d.getLimits (.pyList []) g = .list [] := by
  refine ⟨?_, by simp, rfl, rfl, rfl⟩
  simp [Density1D.getLimits, PyP.atleast1d, List.map_map, Function.comp]

/-! ### C1 -/

lemma cumsum_ss_zero (g : InterpGrid) (hne : g.grid ≠ []) (hnn : ∀ v ∈ g.grid, 0 ≤ v) :
    searchsortedLeft g.cumsum 0 = 0 := by
  have hperm := npSort_perm g.grid
  cases h : npSort g.grid with
  | nil =>
      rw [h] at hperm
      exact absurd hperm.symm.eq_nil hne
  | cons b t =>
      have hbmem : b ∈ g.grid := by
        rw [h] at hperm
        exact hperm.mem_iff.1 (List.mem_cons_self b t)
      have hb : ¬ ((0 : ℚ) + b < 0) := by simpa using not_lt.2 (hnn b hbmem)
      show searchsortedLeft (cumsumQ g.sortgrid) 0 = 0
      rw [show g.sortgrid = b :: t from h]
      simp only [cumsumQ, cumsumFrom, searchsortedLeft, if_neg hb]

lemma getLimitsOne_target_zero (d : Density1D) (g : InterpGrid)
    (hne : g.grid ≠ []) (hnn : ∀ v ∈ g.grid, 0 ≤ v) :
    d.getLimitsOne g 0 = (d.x.getD 0 0, d.x.getD (d.x.length - 1) 0, true, true) := by
  have hix : searchsortedLeft g.cumsum 0 = 0 := cumsum_ss_zero g hne hnn
  have htrial : limitTrial g 0 = g.sortgrid.getD 0 0 := by
    unfold limitTrial
    rw [hix]
    simp
  have hbot : limitTrial g 0 ≤ g.grid.getD 0 0 := by
    rw [htrial]
    exact npSort_head_le g.grid (getD_zero_mem hne)
  have htop : limitTrial g 0 ≤ g.grid.getD (g.grid.length - 1) 0 := by
    rw [htrial]
    exact npSort_head_le g.grid (getD_last_mem hne)
  simp only [Density1D.getLimitsOne]
  rw [decide_eq_true hbot, decide_eq_true htop]
  simp

/-- C1 counterexample: on a concrete grid of positive refined samples,
`getLimits(p=1.0)` returns the domain edges with both flags TRUE (the edge
samples meet the threshold), not `(x[0], x[-1], false, false)` as claimed. -/
theorem getLimits_p1_flags_cex :
    d1ex.getLimits (.scalar 1) gEx = .single (0, 1, true, true)
    ∧ d1ex.getLimits (.scalar 1) gEx ≠ .single (0, 1, false, false) := by
  with_unfolding_all decide

/-- C1 (amended): for every 1D density and every nonempty nonnegative
refined interpolation grid, `getLimits(p=1.0)` returns the bare tuple
`(x[0], x[-1], true, true)`: the target mass is the full probability, the
threshold is the minimum refined sample, both bounds are the domain edges,
and both returned flags (`lim_bot`, `lim_top`) are TRUE — in the source's
convention a true flag says the curve's edge sample already meets the
threshold, i.e. the interval is truncated by the boundary rather than by an
interior crossing. -/
theorem getLimits_p1_edges (d : Density1D) (g : InterpGrid)
    (hne : g.grid ≠ []) (hnn : ∀ v ∈ g.grid, 0 ≤ v) :
    d.getLimits (.scalar 1) g
      = .single (d.x.getD 0 0, d.x.getD (d.x.length - 1) 0, true, true) := by
  have h0 : ((1 : ℚ) - 1) * g.norm = 0 := by ring
  have hone := getLimitsOne_target_zero d g hne hnn
  simp [Density1D.getLimits, PyP.atleast1d, h0, hone]

/-- Witness for C1: the amended theorem applied to a concrete density and
interpolation grid. -/
theorem getLimits_p1_edges_witness :
    Density1D.getLimits ⟨[0, 1, 2], [1, 2, 1], none⟩ (.scalar 1) ⟨2, [1, 3, 2], 9⟩
      = .single (0, 2, true, true) := by
  have h := getLimits_p1_edges ⟨[0, 1, 2], [1, 2, 1], none⟩ ⟨2, [1, 3, 2], 9⟩
    (by with_unfolding_all decide) (by with_unfolding_all decide)
  exact h.trans (by with_unfolding_all decide)

/-! ### C6 -/

lemma getD_map_div (P : List ℚ) (c : ℚ) (i : ℕ) :
    (P.map (· / c)).getD i 0 = P.getD i 0 / c := by
  rcases lt_or_ge i P.length with h | h
  · rw [List.getD_eq_getElem _ _ (by simpa using h), List.getD_eq_getElem _ _ h]
    simp
  · rw [List.getD_eq_default _ _ (by simpa using h), List.getD_eq_default _ _ h]
    simp

lemma sum_map_div (l : List ℚ) (c : ℚ) : (l.map (· / c)).sum = l.sum / c := by
  induction l with
  | nil => simp
  | cons a t ih => simp [ih, add_div]

lemma integrate_map_div (d : Density1D) (P : List ℚ) (c : ℚ) :
    d.integrate (P.map (· / c)) = d.integrate P / c := by
  unfold Density1D.integrate
  rw [List.length_map, getD_map_div, getD_map_div, ← List.map_drop, ← List.map_dropLast,
    sum_map_div, div_add_div_same, div_right_comm, ← add_div, div_mul_eq_mul_div]

lemma norm_integral_normalized (d : Density1D) :
    ({ d with P := d.P.map (· / d.norm_integral) } : Density1D).norm_integral
      = d.norm_integral / d.norm_integral := by
  show d.integrate (d.P.map (· / d.norm_integral)) = _
  exact integrate_map_div d d.P d.norm_integral

/-- C6 counterexample: on the all-zero density (a constructible 1D grid —
`setP(None)` zero-fills), `normalize(by='integral')` divides by the zero
integral, and the subsequent `norm_integral()` does not yield 1.0 (Python
produces NaN there; in the exact model division by zero gives 0 — under both
semantics the result differs from 1). -/
theorem normalize_integral_cex :
    ((Density1D.normalize ⟨[0, 1], [0, 0], none⟩ "integral").map
      Density1D.norm_integral) ≠ .ok 1 := by
  with_unfolding_all decide

/-- C6 (amended): for any 1D grid whose trapezoidal integral is nonzero,
`normalize(by='integral')` followed by `norm_integral()` yields exactly 1. -/
theorem normalize_integral_roundtrip (d : Density1D) (h : d.norm_integral ≠ 0) :
    (d.normalize "integral").map Density1D.norm_integral = .ok 1 := by
  have hstep : d.normalize "integral" = .ok { d with P := d.P.map (· / d.norm_integral) } := by
    simp [Density1D.normalize]
  rw [hstep]
  show Except.ok (({ d with P := d.P.map (· / d.norm_integral) } : Density1D).norm_integral)
    = .ok 1
  rw [norm_integral_normalized, div_self h]

/-- Witness for C6: the amended theorem applied to a concrete density with
unit integral. -/
theorem normalize_integral_roundtrip_witness :
    (d1ex.normalize "integral").map Density1D.norm_integral = .ok 1 :=
  normalize_integral_roundtrip d1ex (by with_unfolding_all decide)

/-! ### C10 -/

lemma writeAbins_not_aliased (s : CLState) (n : List ℚ) (h : s.aliased = false) :
    s.writeAbins n = ⟨s.inbins, n, false⟩ := by
  cases s
  simp_all [CLState.writeAbins]

lemma foldl_writeAbins (shape : List ℕ) (axes : List ℕ) (s : CLState)
    (h : s.aliased = false) :
    axes.foldl
      (fun s a =>
        let s2 := s.writeAbins (halveSlice shape a (shape.getD a 1 - 1) s.abins)
        s2.writeAbins (halveSlice shape a 0 s2.abins)) s
    = ⟨s.inbins,
       axes.foldl (fun d a => halveSlice shape a 0 (halveSlice shape a (shape.getD a 1 - 1) d))
         s.abins,
       false⟩ := by
  induction axes generalizing s with
  | nil =>
      cases s
      simp_all
  | cons a rest ih =>
      rw [List.foldl_cons, List.foldl_cons]
      show rest.foldl _
        ((s.writeAbins (halveSlice shape a (shape.getD a 1 - 1) s.abins)).writeAbins
          (halveSlice shape a 0
            (s.writeAbins (halveSlice shape a (shape.getD a 1 - 1) s.abins)).abins)) = _
      rw [writeAbins_not_aliased s _ h]
      rw [writeAbins_not_aliased ⟨s.inbins, _, false⟩ _ rfl]
      exact ih ⟨s.inbins, _, false⟩ rfl

/-- C10: the solver never modifies its input array.  Re-traced over the
explicit state of the two array names, the final contents of `inbins` equal
the initial contents for every input — with `half_edge=true` the boundary
halvings hit the fresh copy `abins` only, and with `half_edge=false` the
aliased `abins` is only read — and the tracked run returns exactly the
value of the pure model. -/
theorem getContourLevels_pure (inbins : NDArray) (contours : List ℚ) (missing_norm : ℚ)
    (half_edge : Bool) :
    (getContourLevelsTracked inbins contours missing_norm half_edge).2 = inbins.data
    ∧ (getContourLevelsTracked inbins contours missing_norm half_edge).1
        = getContourLevels inbins contours missing_norm half_edge := by
  cases half_edge with
  | false => exact ⟨rfl, rfl⟩
  | true =>
      unfold getContourLevelsTracked
      simp only [reduceIte]
      rw [foldl_writeAbins inbins.shape (List.range inbins.shape.length) _ rfl]
      exact ⟨rfl, rfl⟩

/-! ### Order-statistic lemmas for the solver -/

lemma searchsortedLeft_le_length (c : List ℚ) (t : ℚ) : searchsortedLeft c t ≤ c.length := by
  induction c with
  | nil => simp [searchsortedLeft]
  | cons b r ih =>
      by_cases h : b < t
      · simpa [searchsortedLeft, h] using ih
      · simp [searchsortedLeft, h]

lemma searchsortedLeft_lt_of_lt (c : List ℚ) (t : ℚ) (i : ℕ)
    (h : i < searchsortedLeft c t) : c.getD i 0 < t := by
  induction c generalizing i with
  | nil => simp [searchsortedLeft] at h
  | cons b r ih =>
      by_cases hb : b < t
      · cases i with
        | zero => simpa using hb
        | succ j =>
            rw [searchsortedLeft, if_pos hb] at h
            rw [List.getD_cons_succ]
            exact ih j (Nat.lt_of_succ_lt_succ h)
      · rw [searchsortedLeft, if_neg hb] at h
        exact absurd h (Nat.not_lt_zero i)

lemma searchsortedLeft_ge (c : List ℚ) (t : ℚ) (h : searchsortedLeft c t < c.length) :
    t ≤ c.getD (searchsortedLeft c t) 0 := by
  induction c with
  | nil => simp [searchsortedLeft] at h
  | cons b r ih =>
      by_cases hb : b < t
      · rw [searchsortedLeft, if_pos hb] at h ⊢
        rw [List.getD_cons_succ]
        exact ih (Nat.lt_of_succ_lt_succ h)
      · rw [searchsortedLeft, if_neg hb]
        simpa using not_lt.1 hb

lemma searchsortedLeft_mono (c : List ℚ) {t1 t2 : ℚ} (h : t1 ≤ t2) :
    searchsortedLeft c t1 ≤ searchsortedLeft c t2 := by
  induction c with
  | nil => simp [searchsortedLeft]
  | cons b r ih =>
      by_cases hb : b < t1
      · rw [searchsortedLeft, if_pos hb, searchsortedLeft, if_pos (lt_of_lt_of_le hb h)]
        exact Nat.succ_le_succ ih
      · rw [searchsortedLeft, if_neg hb]
        exact Nat.zero_le _

lemma searchsortedLeft_lt_length_of_last (c : List ℚ) (t : ℚ) (hne : c ≠ [])
    (h : t ≤ c.getD (c.length - 1) 0) : searchsortedLeft c t < c.length := by
  rcases (searchsortedLeft_le_length c t).lt_or_eq with h2 | h2
  · exact h2
  · exfalso
    have hpos : 0 < c.length := List.length_pos.2 hne
    have := searchsortedLeft_lt_of_lt c t (c.length - 1) (by omega)
    exact absurd h (not_le.2 this)

lemma cumsumFrom_length (a : ℚ) (l : List ℚ) : (cumsumFrom a l).length = l.length := by
  induction l generalizing a with
  | nil => simp [cumsumFrom]
  | cons b r ih => simp [cumsumFrom, ih]

lemma cumsumQ_length (l : List ℚ) : (cumsumQ l).length = l.length := cumsumFrom_length 0 l

lemma cumsumFrom_getD (a : ℚ) (l : List ℚ) (i : ℕ) (h : i < l.length) :
    (cumsumFrom a l).getD i 0 = a + (l.take (i + 1)).sum := by
  induction l generalizing a i with
  | nil => simp at h
  | cons b r ih =>
      cases i with
      | zero => simp [cumsumFrom]
      | succ j =>
          rw [cumsumFrom, List.getD_cons_succ, ih (a + b) j (by simpa using h)]
          simp [List.take_succ_cons]
          ring

lemma cumsumQ_diff (s : List ℚ) (ix : ℕ) (h1 : 1 ≤ ix) (h2 : ix < s.length) :
    (cumsumQ s).getD ix 0 - (cumsumQ s).getD (ix - 1) 0 = s.getD ix 0 := by
  obtain ⟨j, rfl⟩ : ∃ j, ix = j + 1 := ⟨ix - 1, by omega⟩
  rw [cumsumQ, cumsumFrom_getD 0 s (j + 1) h2,
    show j + 1 - 1 = j from rfl, cumsumFrom_getD 0 s j (by omega)]
  rw [List.sum_take_succ s (j + 1) h2, List.getD_eq_getElem _ _ h2]
  ring

lemma cumsumQ_last (s : List ℚ) (hne : s ≠ []) :
    (cumsumQ s).getD (s.length - 1) 0 = s.sum := by
  have hpos : 0 < s.length := List.length_pos.2 hne
  rw [cumsumQ, cumsumFrom_getD 0 s (s.length - 1) (by omega),
    show s.length - 1 + 1 = s.length by omega, List.take_length]
  ring

lemma sorted_getD_mono {s : List ℚ} (hs : s.Sorted (· ≤ ·)) {a b : ℕ} (hab : a ≤ b)
    (hb : b < s.length) : s.getD a 0 ≤ s.getD b 0 := by
  have ha : a < s.length := lt_of_le_of_lt hab hb
  rw [List.getD_eq_getElem _ _ ha, List.getD_eq_getElem _ _ hb]
  exact hs.rel_get_of_le (a := ⟨a, ha⟩) (b := ⟨b, hb⟩) hab

/-! ### Permutation and sortedness of the solver's sortgrid -/

lemma map_getD_range (l : List ℚ) : (List.range l.length).map (fun i => l.getD i 0) = l := by
  induction l with
  | nil => simp
  | cons b r ih =>
      rw [List.length_cons, List.range_succ_eq_map, List.map_cons, List.map_map]
      rw [show ((fun i => (b :: r).getD i 0) ∘ Nat.succ) = fun i => r.getD i 0 from
        funext fun i => rfl]
      rw [ih]
      rfl

lemma argsortStable_perm (l : List ℚ) :
    List.Perm (argsortStable l) (List.range l.length) := by
  have h1 : List.Perm ((indexPairs l).insertionSort pairLe) (indexPairs l) :=
    List.perm_insertionSort _ _
  have h2 := h1.map (·.2)
  have h3 : (indexPairs l).map (·.2) = List.range l.length := by
    unfold indexPairs
    rw [List.map_map]
    rw [show ((fun (x : ℚ × ℕ) => x.2) ∘ fun i => (l.getD i 0, i)) = fun i => i from
      funext fun i => rfl]
    exact List.map_id _
  rw [h3] at h2
  exact h2

lemma halveSliceAux_length (shape : List ℕ) (a edge i : ℕ) (l : List ℚ) :
    (halveSliceAux shape a edge i l).length = l.length := by
  induction l generalizing i with
  | nil => simp [halveSliceAux]
  | cons b r ih => simp [halveSliceAux, ih]

lemma halveSliceAux_nonneg (shape : List ℕ) (a edge i : ℕ) (l : List ℚ)
    (h : ∀ v ∈ l, 0 ≤ v) : ∀ v ∈ halveSliceAux shape a edge i l, 0 ≤ v := by
  induction l generalizing i with
  | nil => simp [halveSliceAux]
  | cons b r ih =>
      intro v hv
      rw [halveSliceAux] at hv
      rcases List.mem_cons.1 hv with rfl | hv2
      · have hb := h b (List.mem_cons_self b r)
        split
        · positivity
        · exact hb
      · exact ih (i + 1) (fun w hw => h w (List.mem_cons_of_mem b hw)) v hv2

lemma foldl_halve_length (shape : List ℕ) (axes : List ℕ) (data : List ℚ) :
    ((axes.foldl
      (fun d a => halveSlice shape a 0 (halveSlice shape a (shape.getD a 1 - 1) d)) data)).length
    = data.length := by
  induction axes generalizing data with
  | nil => rfl
  | cons a rest ih =>
      rw [List.foldl_cons, ih]
      rw [halveSlice, halveSliceAux_length, halveSlice, halveSliceAux_length]

lemma foldl_halve_nonneg (shape : List ℕ) (axes : List ℕ) (data : List ℚ)
    (h : ∀ v ∈ data, 0 ≤ v) :
    ∀ v ∈ axes.foldl
      (fun d a => halveSlice shape a 0 (halveSlice shape a (shape.getD a 1 - 1) d)) data,
      0 ≤ v := by
  induction axes generalizing data with
  | nil => exact h
  | cons a rest ih =>
      rw [List.foldl_cons]
      exact ih _ (halveSliceAux_nonneg _ _ _ _ _ (halveSliceAux_nonneg _ _ _ _ _ h))

lemma contourAdjusted_length (inbins : NDArray) (he : Bool) :
    (contourAdjusted inbins he).length = inbins.data.length := by
  cases he with
  | false => rfl
  | true => exact foldl_halve_length inbins.shape _ inbins.data

lemma contourAdjusted_nonneg (inbins : NDArray) (he : Bool)
    (h : ∀ v ∈ inbins.data, 0 ≤ v) : ∀ v ∈ contourAdjusted inbins he, 0 ≤ v := by
  cases he with
  | false => exact h
  | true => exact foldl_halve_nonneg inbins.shape _ inbins.data h

lemma contourSortgrid_perm (inbins : NDArray) (he : Bool) :
    List.Perm (contourSortgrid inbins he) (contourAdjusted inbins he) := by
  unfold contourSortgrid
  have h := (argsortStable_perm inbins.data).map
    fun i => (contourAdjusted inbins he).getD i 0
  rw [show inbins.data.length = (contourAdjusted inbins he).length from
    (contourAdjusted_length inbins he).symm, map_getD_range] at h
  exact h

lemma contourSortgrid_nonneg (inbins : NDArray) (he : Bool)
    (h : ∀ v ∈ inbins.data, 0 ≤ v) : ∀ v ∈ contourSortgrid inbins he, 0 ≤ v :=
  fun v hv => contourAdjusted_nonneg inbins he h v
    ((contourSortgrid_perm inbins he).mem_iff.1 hv)

lemma contourSortgrid_sum (inbins : NDArray) (he : Bool) :
    (contourSortgrid inbins he).sum = (contourAdjusted inbins he).sum :=
  (contourSortgrid_perm inbins he).sum_eq

lemma contourSortgrid_length (inbins : NDArray) (he : Bool) :
    (contourSortgrid inbins he).length = inbins.data.length := by
  rw [(contourSortgrid_perm inbins he).length_eq, contourAdjusted_length]

/-! ### Loop extraction lemmas -/

lemma contourLevelAt_ok (s c : List ℚ) (t v : ℚ) (h : contourLevelAt s c t = .ok v) :
    searchsortedLeft c t ≠ 0 ∧ searchsortedLeft c t < c.length
    ∧ v = contourLevelVal s c t := by
  by_cases h0 : searchsortedLeft c t = 0
  · rw [contourLevelAt, if_pos h0] at h
    exact absurd h (by simp)
  · rw [contourLevelAt, if_neg h0] at h
    by_cases h1 : searchsortedLeft c t < c.length
    · rw [if_pos h1] at h
      exact ⟨h0, h1, (Except.ok.inj h).symm⟩
    · rw [if_neg h1] at h
      exact absurd h (by simp)

lemma contourLevelAt_oor_iff (s c : List ℚ) (t : ℚ) :
    contourLevelAt s c t = .error contourOutOfRangeErr ↔ searchsortedLeft c t = 0 := by
  constructor
  · intro h
    by_contra h0
    rw [contourLevelAt, if_neg h0] at h
    by_cases h1 : searchsortedLeft c t < c.length
    · rw [if_pos h1] at h
      exact Except.noConfusion h
    · rw [if_neg h1] at h
      exact absurd (Except.error.inj h) (by simp [contourOutOfRangeErr])
  · intro h0
    rw [contourLevelAt, if_pos h0]

lemma contourLoop_ok_getD (s c : List ℚ) (ts r : List ℚ)
    (h : contourLoop s c ts = .ok r) (k : ℕ) (hk : k < ts.length) :
    contourLevelAt s c (ts.getD k 0) = .ok (r.getD k 0) := by
  induction ts generalizing r k with
  | nil => simp at hk
  | cons t rest ih =>
      rw [contourLoop] at h
      cases hv : contourLevelAt s c t with
      | error e => rw [hv] at h; exact Except.noConfusion h
      | ok v =>
          rw [hv] at h
          cases hr : contourLoop s c rest with
          | error e =>
              rw [hr] at h
              exact Except.noConfusion h
          | ok vs =>
              rw [hr] at h
              simp only [bind, Except.bind, pure, Except.pure] at h
              have hrv : r = v :: vs := (Except.ok.inj h).symm
              subst hrv
              cases k with
              | zero => simpa using hv
              | succ j =>
                  rw [List.getD_cons_succ, List.getD_cons_succ]
                  exact ih vs (hr) j (by simpa using hk)

lemma contourLoop_ok_length (s c : List ℚ) (ts r : List ℚ)
    (h : contourLoop s c ts = .ok r) : r.length = ts.length := by
  induction ts generalizing r with
  | nil =>
      rw [contourLoop] at h
      rw [← Except.ok.inj h]
  | cons t rest ih =>
      rw [contourLoop] at h
      cases hv : contourLevelAt s c t with
      | error e => rw [hv] at h; exact Except.noConfusion h
      | ok v =>
          rw [hv] at h
          cases hr : contourLoop s c rest with
          | error e => rw [hr] at h; exact Except.noConfusion h
          | ok vs =>
              rw [hr] at h
              simp only [bind, Except.bind, pure, Except.pure] at h
              rw [← Except.ok.inj h]
              simp [ih vs hr]

lemma contourLoop_oor_iff (s c : List ℚ) (ts : List ℚ)
    (hidx : ∀ t ∈ ts, searchsortedLeft c t < c.length) :
    contourLoop s c ts = .error contourOutOfRangeErr
      ↔ ∃ t ∈ ts, searchsortedLeft c t = 0 := by
  induction ts with
  | nil => simp [contourLoop]
  | cons t rest ih =>
      have hrest := ih fun u hu => hidx u (List.mem_cons_of_mem t hu)
      by_cases h0 : searchsortedLeft c t = 0
      · have herr : contourLevelAt s c t = .error contourOutOfRangeErr :=
          (contourLevelAt_oor_iff s c t).2 h0
        rw [contourLoop, herr]
        simp only [bind, Except.bind]
        exact ⟨fun _ => ⟨t, List.mem_cons_self t rest, h0⟩, fun _ => trivial⟩
      · have hok : contourLevelAt s c t = .ok (contourLevelVal s c t) := by
          rw [contourLevelAt, if_neg h0, if_pos (hidx t (List.mem_cons_self t rest))]
        rw [contourLoop, hok]
        simp only [bind, Except.bind]
        cases hr : contourLoop s c rest with
        | error e =>
            rw [hr] at hrest
            constructor
            · intro hh
              obtain ⟨u, hu, h0u⟩ := hrest.1 (by rw [← Except.error.inj hh])
              exact ⟨u, List.mem_cons_of_mem t hu, h0u⟩
            · intro ⟨u, hu, h0u⟩
              rcases List.mem_cons.1 hu with rfl | hu2
              · exact absurd h0u h0
              · rw [show e = contourOutOfRangeErr from
                  Except.error.inj (hrest.2 ⟨u, hu2, h0u⟩)]
        | ok vs =>
            rw [hr] at hrest
            simp only [pure, Except.pure]
            constructor
            · intro hh
              exact Except.noConfusion hh
            · intro ⟨u, hu, h0u⟩
              rcases List.mem_cons.1 hu with rfl | hu2
              · exact absurd h0u h0
              · exact Except.noConfusion (hrest.2 ⟨u, hu2, h0u⟩)

/-! ### C5 -/

/-- C5: under the module's operating conditions (nonempty nonnegative bins,
nonnegative contour fractions and missing norm), the solver fails with the
ContourOutOfRange error exactly when some target's insertion index in the
cumulative sum is 0 (the target lies at or below the smallest cumulative
value); in particular on the 5-bin histogram `[1, 2, 5, 2, 1]` with
`contours = [0.999999]`, `half_edge = true` and `missing_norm = 0` it
raises ContourOutOfRange. -/
theorem contourOutOfRange_iff (inbins : NDArray) (contours : List ℚ) (missing_norm : ℚ)
    (he : Bool) (hne : inbins.data ≠ []) (hnn : ∀ v ∈ inbins.data, 0 ≤ v)
    (hc : ∀ c ∈ contours, 0 ≤ c) (hmn : 0 ≤ missing_norm) :
    (getContourLevels inbins contours missing_norm he = .error contourOutOfRangeErr
      ↔ ∃ t ∈ contourTargets inbins contours missing_norm he,
          searchsortedLeft (contourCumsum inbins he) t = 0)
    ∧ getContourLevels ⟨[5], [1, 2, 5, 2, 1]⟩ [999999/1000000] 0 true
        = .error contourOutOfRangeErr := by
  constructor
  · apply contourLoop_oor_iff
    intro t ht
    have hslen : (contourSortgrid inbins he).length = inbins.data.length :=
      contourSortgrid_length inbins he
    have hsne : contourSortgrid inbins he ≠ [] := by
      intro hnil
      rw [hnil] at hslen
      exact hne (List.eq_nil_of_length_eq_zero hslen.symm)
    have hcne : contourCumsum inbins he ≠ [] := by
      intro hnil
      have := cumsumQ_length (contourSortgrid inbins he)
      rw [show cumsumQ (contourSortgrid inbins he) = contourCumsum inbins he from rfl,
        hnil] at this
      exact hsne (List.eq_nil_of_length_eq_zero this.symm)
    have hnorm : 0 ≤ (contourAdjusted inbins he).sum :=
      List.sum_nonneg (contourAdjusted_nonneg inbins he hnn)
    obtain ⟨a, ha, hfa⟩ := List.mem_map.1 ht
    have htle : t ≤ (contourAdjusted inbins he).sum := by
      rw [← hfa]
      have h1 : 0 ≤ a * (contourAdjusted inbins he).sum :=
        mul_nonneg (hc a ha) hnorm
      nlinarith
    apply searchsortedLeft_lt_length_of_last _ _ hcne
    have hlast : (contourCumsum inbins he).getD ((contourCumsum inbins he).length - 1) 0
        = (contourAdjusted inbins he).sum := by
      show (cumsumQ (contourSortgrid inbins he)).getD
        ((contourCumsum inbins he).length - 1) 0 = _
      rw [show (contourCumsum inbins he).length = (contourSortgrid inbins he).length from
        cumsumQ_length _]
      rw [cumsumQ_last _ hsne]
      exact contourSortgrid_sum inbins he
    rw [hlast]
    exact htle
  · with_unfolding_all decide

/-- Witness for C5: the theorem applied to the concrete 5-bin histogram. -/
theorem contourOutOfRange_iff_witness :
    (getContourLevels ⟨[5], [1, 2, 5, 2, 1]⟩ [999999/1000000] 0 true
        = .error contourOutOfRangeErr
      ↔ ∃ t ∈ contourTargets ⟨[5], [1, 2, 5, 2, 1]⟩ [999999/1000000] 0 true,
          searchsortedLeft (contourCumsum ⟨[5], [1, 2, 5, 2, 1]⟩ true) t = 0)
    ∧ getContourLevels ⟨[5], [1, 2, 5, 2, 1]⟩ [999999/1000000] 0 true
        = .error contourOutOfRangeErr :=
  contourOutOfRange_iff ⟨[5], [1, 2, 5, 2, 1]⟩ [999999/1000000] 0 true
    (by with_unfolding_all decide) (by with_unfolding_all decide)
    (by with_unfolding_all decide) (by with_unfolding_all decide)

/-! ### C4 -/

lemma contourSortgrid_false_sorted (inbins : NDArray) :
    (contourSortgrid inbins false).Sorted (· ≤ ·) := by
  show ((argsortStable inbins.data).map
    fun i => (contourAdjusted inbins false).getD i 0).Sorted (· ≤ ·)
  rw [show contourAdjusted inbins false = inbins.data from rfl]
  unfold argsortStable
  rw [List.map_map]
  have hmem : ∀ p ∈ (indexPairs inbins.data).insertionSort pairLe,
      ((fun i => inbins.data.getD i 0) ∘ (fun (x : ℚ × ℕ) => x.2)) p = p.1 := by
    intro p hp
    have hp2 : p ∈ indexPairs inbins.data :=
      (List.perm_insertionSort pairLe (indexPairs inbins.data)).mem_iff.1 hp
    obtain ⟨i, hi, hpi⟩ := List.mem_map.1 hp2
    rw [← hpi]
    rfl
  rw [List.map_congr_left hmem]
  have hsorted := List.sorted_insertionSort pairLe (indexPairs inbins.data)
  exact List.Pairwise.map _ (fun a b hab => hab) hsorted

lemma contourLevelVal_mono (s : List ℚ) (t1 t2 : ℚ) (hs : s.Sorted (· ≤ ·)) (h21 : t2 ≤ t1)
    (h1a : searchsortedLeft (cumsumQ s) t1 ≠ 0)
    (h1b : searchsortedLeft (cumsumQ s) t1 < (cumsumQ s).length)
    (h2a : searchsortedLeft (cumsumQ s) t2 ≠ 0)
    (h2b : searchsortedLeft (cumsumQ s) t2 < (cumsumQ s).length) :
    contourLevelVal s (cumsumQ s) t2 ≤ contourLevelVal s (cumsumQ s) t1 := by
  have hclen : (cumsumQ s).length = s.length := cumsumQ_length s
  have h1low : (cumsumQ s).getD (searchsortedLeft (cumsumQ s) t1 - 1) 0 < t1 :=
    searchsortedLeft_lt_of_lt _ _ _ (by omega)
  have h2low : (cumsumQ s).getD (searchsortedLeft (cumsumQ s) t2 - 1) 0 < t2 :=
    searchsortedLeft_lt_of_lt _ _ _ (by omega)
  have h1up : t1 ≤ (cumsumQ s).getD (searchsortedLeft (cumsumQ s) t1) 0 :=
    searchsortedLeft_ge _ _ h1b
  have h2up : t2 ≤ (cumsumQ s).getD (searchsortedLeft (cumsumQ s) t2) 0 :=
    searchsortedLeft_ge _ _ h2b
  have hmono : searchsortedLeft (cumsumQ s) t2 ≤ searchsortedLeft (cumsumQ s) t1 :=
    searchsortedLeft_mono _ h21
  have h1d : (cumsumQ s).getD (searchsortedLeft (cumsumQ s) t1) 0
      - (cumsumQ s).getD (searchsortedLeft (cumsumQ s) t1 - 1) 0
      = s.getD (searchsortedLeft (cumsumQ s) t1) 0 :=
    cumsumQ_diff s _ (by omega) (by omega)
  have h2d : (cumsumQ s).getD (searchsortedLeft (cumsumQ s) t2) 0
      - (cumsumQ s).getD (searchsortedLeft (cumsumQ s) t2 - 1) 0
      = s.getD (searchsortedLeft (cumsumQ s) t2) 0 :=
    cumsumQ_diff s _ (by omega) (by omega)
  have hss1 : s.getD (searchsortedLeft (cumsumQ s) t1 - 1) 0
      ≤ s.getD (searchsortedLeft (cumsumQ s) t1) 0 :=
    sorted_getD_mono hs (by omega) (by omega)
  have hss2 : s.getD (searchsortedLeft (cumsumQ s) t2 - 1) 0
      ≤ s.getD (searchsortedLeft (cumsumQ s) t2) 0 :=
    sorted_getD_mono hs (by omega) (by omega)
  simp only [contourLevelVal]
  rcases eq_or_lt_of_le hmono with heq | hlt
  · rw [heq] at h2low h2up h2d hss2 ⊢
    set A := (cumsumQ s).getD (searchsortedLeft (cumsumQ s) t1) 0 with hA
    set B := (cumsumQ s).getD (searchsortedLeft (cumsumQ s) t1 - 1) 0 with hB
    set S1 := s.getD (searchsortedLeft (cumsumQ s) t1) 0 with hS1
    set S0 := s.getD (searchsortedLeft (cumsumQ s) t1 - 1) 0 with hS0
    have hpos : 0 < A - B := by linarith
    have hd12 : (A - t1) / (A - B) ≤ (A - t2) / (A - B) :=
      (div_le_div_iff_of_pos_right hpos).2 (by linarith)
    nlinarith [mul_nonneg (sub_nonneg.2 hd12) (sub_nonneg.2 hss1)]
  · have hcross : s.getD (searchsortedLeft (cumsumQ s) t2) 0
        ≤ s.getD (searchsortedLeft (cumsumQ s) t1 - 1) 0 :=
      sorted_getD_mono hs (by omega) (by omega)
    set A1 := (cumsumQ s).getD (searchsortedLeft (cumsumQ s) t1) 0 with hA1
    set B1 := (cumsumQ s).getD (searchsortedLeft (cumsumQ s) t1 - 1) 0 with hB1
    set A2 := (cumsumQ s).getD (searchsortedLeft (cumsumQ s) t2) 0 with hA2
    set B2 := (cumsumQ s).getD (searchsortedLeft (cumsumQ s) t2 - 1) 0 with hB2
    set S1 := s.getD (searchsortedLeft (cumsumQ s) t1) 0 with hS1
    set S0 := s.getD (searchsortedLeft (cumsumQ s) t1 - 1) 0 with hS0
    set T1 := s.getD (searchsortedLeft (cumsumQ s) t2) 0 with hT1
    set T0 := s.getD (searchsortedLeft (cumsumQ s) t2 - 1) 0 with hT0
    have h1pos : 0 < A1 - B1 := by linarith
    have h2pos : 0 < A2 - B2 := by linarith
    have hd1_0 : 0 ≤ (A1 - t1) / (A1 - B1) := div_nonneg (by linarith) (le_of_lt h1pos)
    have hd1_1 : (A1 - t1) / (A1 - B1) ≤ 1 := (div_le_one h1pos).2 (by linarith)
    have hd2_0 : 0 ≤ (A2 - t2) / (A2 - B2) := div_nonneg (by linarith) (le_of_lt h2pos)
    have hd2_1 : (A2 - t2) / (A2 - B2) ≤ 1 := (div_le_one h2pos).2 (by linarith)
    nlinarith [mul_nonneg hd2_0 (sub_nonneg.2 hss2),
      mul_nonneg (sub_nonneg.2 hd1_1) (sub_nonneg.2 hss1), hcross]

lemma getD_map_at (l : List ℚ) (f : ℚ → ℚ) (i : ℕ) (h : i < l.length) :
    (l.map f).getD i 0 = f (l.getD i 0) := by
  rw [List.getD_eq_getElem _ _ (by simpa using h), List.getD_eq_getElem _ _ h,
    List.getElem_map]

/-- C4 counterexample: on the nonnegative 1D weights `[4, 3, 10]` with
`half_edge = true` (the solver's default), the contours `0.5 < 0.6` produce
levels `2 < 2.5` — the level for the SMALLER contour is strictly smaller,
violating the claimed monotonicity.  The half-edge halving reorders mass
relative to the argsort of the original array (`sortgrid = [3, 2, 5]` is
not ascending), which breaks the order statistic. -/
theorem contourLevels_monotone_cex :
    getContourLevels ⟨[3], [4, 3, 10]⟩ [1/2, 3/5] 0 true = .ok [2, 5/2]
    ∧ ((1 : ℚ)/2 < 3/5) ∧ ((2 : ℚ) < 5/2) := by
  with_unfolding_all decide

/-- C4 (amended): with `half_edge = false` — where the cumulative mass is
accumulated in the same ascending order that sorts the summed values — the
solver is antitone: for any nonnegative weight array and any call that
returns levels, a smaller (or equal) requested contour fraction receives a
greater or equal density level.  (With `half_edge = true` the adjusted
values are ordered by the argsort of the ORIGINAL array, and the
counterexample above shows monotonicity can fail.) -/
theorem contourLevels_antitone (inbins : NDArray) (contours : List ℚ) (missing_norm : ℚ)
    (levels : List ℚ)
    (hnn : ∀ v ∈ inbins.data, 0 ≤ v)
    (hok : getContourLevels inbins contours missing_norm false = .ok levels)
    (i j : ℕ) (hi : i < contours.length) (hj : j < contours.length)
    (hc : contours.getD i 0 ≤ contours.getD j 0) :
    levels.getD j 0 ≤ levels.getD i 0 := by
  have htlen : (contourTargets inbins contours missing_norm false).length
      = contours.length := by
    unfold contourTargets
    simp
  have hoki := contourLoop_ok_getD _ _ _ _ hok i (by omega)
  have hokj := contourLoop_ok_getD _ _ _ _ hok j (by omega)
  obtain ⟨hia, hib, hival⟩ := contourLevelAt_ok _ _ _ _ hoki
  obtain ⟨hja, hjb, hjval⟩ := contourLevelAt_ok _ _ _ _ hokj
  have hsorted := contourSortgrid_false_sorted inbins
  have hnorm : 0 ≤ (contourAdjusted inbins false).sum :=
    List.sum_nonneg (contourAdjusted_nonneg _ _ hnn)
  have hti : (contourTargets inbins contours missing_norm false).getD i 0
      = (1 - contours.getD i 0) * (contourAdjusted inbins false).sum - missing_norm := by
    unfold contourTargets
    exact getD_map_at contours _ i hi
  have htj : (contourTargets inbins contours missing_norm false).getD j 0
      = (1 - contours.getD j 0) * (contourAdjusted inbins false).sum - missing_norm := by
    unfold contourTargets
    exact getD_map_at contours _ j hj
  have hts : (contourTargets inbins contours missing_norm false).getD j 0
      ≤ (contourTargets inbins contours missing_norm false).getD i 0 := by
    rw [hti, htj]
    nlinarith [mul_nonneg (sub_nonneg.2 hc) hnorm]
  rw [hival, hjval]
  exact contourLevelVal_mono (contourSortgrid inbins false)
    ((contourTargets inbins contours missing_norm false).getD i 0)
    ((contourTargets inbins contours missing_norm false).getD j 0)
    hsorted hts hia hib hja hjb

/-- Witness for C4: the amended theorem applied to the concrete weights
`[1, 2, 1]` with `half_edge = false`, contours `[0.25, 0.5]`, where the
solver returns `[1.5, 1]`. -/
theorem contourLevels_antitone_witness :
    ([3/2, 1] : List ℚ).getD 1 0 ≤ ([3/2, 1] : List ℚ).getD 0 0 :=
  contourLevels_antitone ⟨[3], [1, 2, 1]⟩ [1/4, 1/2] 0 [3/2, 1]
    (by with_unfolding_all decide) (by with_unfolding_all decide)
    0 1 (by with_unfolding_all decide) (by with_unfolding_all decide)
    (by with_unfolding_all decide)

/-! ### C8 -/

/-- C8: the two order-statistic searches use intentionally different
interpolation pairings.  Every level the Contour Level Solver returns
interpolates between the SORTED entries at indices `ix - 1` and `ix`
(weighted by the overshoot fraction `d`), while the threshold selection in
`getLimits` interpolates, whenever its insertion index is positive, between
the sorted REFINED values at indices `ix` and `ix + 1`. -/
theorem interpolation_pairings
    (inbins : NDArray) (contours : List ℚ) (missing_norm : ℚ) (he : Bool)
    (levels : List ℚ) (k : ℕ)
    (hok : getContourLevels inbins contours missing_norm he = .ok levels)
    (hk : k < contours.length)
    (g : InterpGrid) (t : ℚ) (hgx : 0 < searchsortedLeft g.cumsum t) :
    (let s := contourSortgrid inbins he
     let c := contourCumsum inbins he
     let tk := (contourTargets inbins contours missing_norm he).getD k 0
     let ix := searchsortedLeft c tk
     let d := (c.getD ix 0 - tk) / (c.getD ix 0 - c.getD (ix - 1) 0)
     levels.getD k 0 = s.getD ix 0 * (1 - d) + d * s.getD (ix - 1) 0)
    ∧ (let jx := searchsortedLeft g.cumsum t
       let frac := (g.cumsum.getD jx 0 - t)
         / (g.cumsum.getD jx 0 - g.cumsum.getD (jx - 1) 0)
       limitTrial g t
         = (1 - frac) * g.sortgrid.getD jx 0 + frac * g.sortgrid.getD (jx + 1) 0) := by
  constructor
  · have htlen : (contourTargets inbins contours missing_norm he).length
        = contours.length := by
      unfold contourTargets
      simp
    have hokk := contourLoop_ok_getD _ _ _ _ hok k (by omega)
    obtain ⟨_, _, hval⟩ := contourLevelAt_ok _ _ _ _ hokk
    exact hval
  · show limitTrial g t = _
    rw [limitTrial, if_pos hgx]

/-- Witness for C8: the pairing theorem applied to concrete inputs for both
code paths. -/
theorem interpolation_pairings_witness :
    (let s := contourSortgrid ⟨[3], [1, 2, 1]⟩ false
     let c := contourCumsum ⟨[3], [1, 2, 1]⟩ false
     let tk := (contourTargets ⟨[3], [1, 2, 1]⟩ [1/4, 1/2] 0 false).getD 0 0
     let ix := searchsortedLeft c tk
     let d := (c.getD ix 0 - tk) / (c.getD ix 0 - c.getD (ix - 1) 0)
     ([3/2, 1] : List ℚ).getD 0 0 = s.getD ix 0 * (1 - d) + d * s.getD (ix - 1) 0)
    ∧ (let jx := searchsortedLeft (InterpGrid.cumsum ⟨2, [1, 2, 3], 6⟩) 2
       let frac := ((InterpGrid.cumsum ⟨2, [1, 2, 3], 6⟩).getD jx 0 - 2)
         / ((InterpGrid.cumsum ⟨2, [1, 2, 3], 6⟩).getD jx 0
            - (InterpGrid.cumsum ⟨2, [1, 2, 3], 6⟩).getD (jx - 1) 0)
       limitTrial ⟨2, [1, 2, 3], 6⟩ 2
         = (1 - frac) * (InterpGrid.sortgrid ⟨2, [1, 2, 3], 6⟩).getD jx 0
           + frac * (InterpGrid.sortgrid ⟨2, [1, 2, 3], 6⟩).getD (jx + 1) 0) :=
  interpolation_pairings ⟨[3], [1, 2, 1]⟩ [1/4, 1/2] 0 false [3/2, 1] 0
    (by with_unfolding_all decide) (by with_unfolding_all decide)
    ⟨2, [1, 2, 3], 6⟩ 2 (by with_unfolding_all decide)
